import Mathlib

/-!
Shallow embedding of the CSV ingestion and chart-aggregation logic of the
viz-my-money web application, together with proofs of the specification
claims about it.

Sources embedded:
* `src/components/dashboard/UploadSection.tsx` — `parseCSVLine`,
  `parseNumber`, `normalizeDate`, `parseCSV`, `handleFileSelect`;
* the chart section components — `categoryData`, `topExpenses`,
  `monthlyData` and the Top-N slice.

Strings are modelled as Lean `String`/`List Char`; JavaScript numbers are
modelled as exact rationals `ℚ` (the claims under study concern grouping,
ordering, sign and default-to-zero behaviour, none of which depend on
binary floating-point rounding).  JavaScript `undefined` is modelled as
`Option.none`.
-/

/-- The whitespace test used to model JavaScript `String.prototype.trim`
(ASCII whitespace, NBSP, BOM and the Unicode line separators). -/
def isWS (c : Char) : Bool :=
  c = ' ' || c = '\t' || c = '\n' || c = '\r' || c = '\x0b' || c = '\x0c' ||
  c = '\u00A0' || c = '\uFEFF' || c = '\u2028' || c = '\u2029'

/-- `str.trim()` on character lists: drop whitespace from both ends. -/
def jsTrimL (l : List Char) : List Char :=
  ((l.dropWhile isWS).reverse.dropWhile isWS).reverse

/-- `str.trim()` on strings. -/
def jsTrim (s : String) : String := ⟨jsTrimL s.data⟩

/-- The character loop of `parseCSVLine` (UploadSection.tsx:18-37):
`cur` is the `current` accumulator, `q` the `inQuotes` flag.  A quote
toggles `q` and is dropped; a comma outside quotes pushes the trimmed
accumulator; anything else is appended to the accumulator. -/
def csvLineGo : List Char → List Char → Bool → List String
  | [], cur, _ => [⟨jsTrimL cur⟩]
  | c :: rest, cur, q =>
    if c = '"' then csvLineGo rest cur (!q)
    else if c = ',' ∧ q = false then ⟨jsTrimL cur⟩ :: csvLineGo rest [] q
    else csvLineGo rest (cur ++ [c]) q

/-- `parseCSVLine` (UploadSection.tsx:18-37). -/
def parseCSVLine (s : String) : List String := csvLineGo s.data [] false

/-- Number of commas of a character list that occur outside quoted spans,
starting from quote-state `q` (quotes toggle the state exactly as in
`parseCSVLine`). -/
def countUQC : List Char → Bool → Nat
  | [], _ => 0
  | c :: rest, q =>
    if c = '"' then countUQC rest (!q)
    else if c = ',' ∧ q = false then countUQC rest q + 1
    else countUQC rest q

/-- ASCII digit test. -/
def isDig (c : Char) : Bool := '0' ≤ c && c ≤ '9'

/-- Numeric value of a digit string read left to right (the value
`Number`/`parseFloat` assigns to a plain digit sequence). -/
def digitsVal (l : List Char) : Nat :=
  l.foldl (fun a c => a * 10 + (c.toNat - '0'.toNat)) 0

/-- Exponent suffix of a JS decimal literal: optional sign then digits;
with no digits the exponent part is not part of the literal and
contributes factor `10 ^ 0`. -/
def expVal (l : List Char) : Int :=
  match l with
  | '-' :: r => if (r.takeWhile isDig).isEmpty then 0
                else -(digitsVal (r.takeWhile isDig) : Int)
  | '+' :: r => if (r.takeWhile isDig).isEmpty then 0
                else (digitsVal (r.takeWhile isDig) : Int)
  | _ => if (l.takeWhile isDig).isEmpty then 0
         else (digitsVal (l.takeWhile isDig) : Int)

/-- Model of JavaScript `parseFloat`: skip leading whitespace, read an
optional sign and then the longest decimal-literal prefix
(`digits [. digits] [e [sign] digits]`); `none` models `NaN` (no digit in
the mantissa).  The `Infinity` literal form is not modelled: no claim
reaches it. -/
def jsParseFloat (l : List Char) : Option ℚ :=
  let l1 := l.dropWhile isWS
  let sgn : ℚ := match l1 with | '-' :: _ => -1 | _ => 1
  let l2 : List Char := match l1 with
    | '-' :: r => r
    | '+' :: r => r
    | _ => l1
  let ip := l2.takeWhile isDig
  let r1 := l2.dropWhile isDig
  let fp : List Char := match r1 with
    | '.' :: r => r.takeWhile isDig
    | _ => []
  let r2 : List Char := match r1 with
    | '.' :: r => r.dropWhile isDig
    | _ => r1
  if ip.isEmpty ∧ fp.isEmpty then none
  else
    let mant : ℚ := (digitsVal ip : ℚ) + (digitsVal fp : ℚ) / (10 : ℚ) ^ fp.length
    let ex : Int := match r2 with
      | 'e' :: r => expVal r
      | 'E' :: r => expVal r
      | _ => 0
    some (sgn * mant * (10 : ℚ) ^ ex)

/-- `parseNumber` (UploadSection.tsx:39-44): empty string gives 0,
otherwise commas are removed and `parseFloat(cleaned) || 0` is returned
(`NaN` becomes 0; a parsed 0 stays 0). -/
def parseNumber (s : String) : ℚ :=
  if s = "" then 0
  else (jsParseFloat (s.data.filter (fun c => c ≠ ','))).getD 0

/-- Date-separator test (slash or dash) used by the two regexes in `normalizeDate`. -/
def isSep (c : Char) : Bool := c = '/' || c = '-'

/-- Split a character list at every separator, keeping empty segments
(the behaviour of JS `String.prototype.split` with a character class). -/
def splitByP (p : Char → Bool) : List Char → List (List Char)
  | [] => [[]]
  | c :: cs =>
    if p c then [] :: splitByP p cs
    else
      match splitByP p cs with
      | [] => [[c]]
      | s :: ss => (c :: s) :: ss

/-- All characters are ASCII digits. -/
def allDigits (l : List Char) : Bool := l.all isDig

/-- `String.prototype.padStart(2, '0')`. -/
def pad2 (l : List Char) : List Char :=
  if 2 ≤ l.length then l else List.replicate (2 - l.length) '0' ++ l

/-- Test for the first date regex (four digits, separator, one or two digits, separator, one or two digits, anchored)
(UploadSection.tsx:53): exactly three separator-delimited segments, all
digits, of lengths 4, 1-2, 1-2. -/
def matchYMD (l : List Char) : Bool :=
  match splitByP isSep l with
  | [a, b, c] =>
    a.length == 4 && allDigits a &&
    (b.length == 1 || b.length == 2) && allDigits b &&
    (c.length == 1 || c.length == 2) && allDigits c
  | _ => false

/-- Test for the second date regex (one or two digits, separator, one or two digits, separator, four digits, anchored)
(UploadSection.tsx:62). -/
def matchMDY (l : List Char) : Bool :=
  match splitByP isSep l with
  | [a, b, c] =>
    (a.length == 1 || a.length == 2) && allDigits a &&
    (b.length == 1 || b.length == 2) && allDigits b &&
    c.length == 4 && allDigits c
  | _ => false

/-- Rebuild the dash-joined year, padded month and padded day from the
year-first segments (UploadSection.tsx:54-58). -/
def renderYMD (c : List Char) : List Char :=
  match splitByP isSep c with
  | [y, m, d] => y ++ ('-' :: (pad2 m ++ ('-' :: pad2 d)))
  | _ => c

/-- Rebuild the dash-joined year, padded month and padded day from the
month-first segments (UploadSection.tsx:63-67). -/
def renderMDY (c : List Char) : List Char :=
  match splitByP isSep c with
  | [m, d, y] => y ++ ('-' :: (pad2 m ++ ('-' :: pad2 d)))
  | _ => c

/-- `normalizeDate` (UploadSection.tsx:46-71) on character lists: a falsy
(empty) input yields `''`; otherwise the input is trimmed, the two
literal patterns are rewritten to `YYYY-MM-DD` with zero-padded month and
day, and anything else is returned as the trimmed string. -/
def normalizeDateL (l : List Char) : List Char :=
  if l.isEmpty then []
  else
    let c := jsTrimL l
    if matchYMD c then renderYMD c
    else if matchMDY c then renderMDY c
    else c

/-- `normalizeDate` on strings. -/
def normalizeDate (s : String) : String := ⟨normalizeDateL s.data⟩

/-- Substring containment, modelling JS `String.prototype.includes`. -/
def hasSub (hay needle : String) : Bool :=
  hay.data.tails.any (fun t => needle.data.isPrefixOf t)

/-- `header.includes("date") || header === "date"` (UploadSection.tsx:87). -/
def hDate (h : String) : Bool := hasSub h "date" || h == "date"

/-- `header.includes("category") && !header.includes("sub")` (tsx:90). -/
def hCat (h : String) : Bool := hasSub h "category" && !hasSub h "sub"

/-- `header.includes("subcategory") || header.includes("sub")` (tsx:93). -/
def hSub (h : String) : Bool := hasSub h "subcategory" || hasSub h "sub"

/-- `header.includes("income")` (tsx:96). -/
def hInc (h : String) : Bool := hasSub h "income"

/-- `header.includes("expense")` (tsx:99). -/
def hExp (h : String) : Bool := hasSub h "expense"

/-- `header.includes("note") || header.includes("description")` (tsx:102). -/
def hNote (h : String) : Bool := hasSub h "note" || hasSub h "description"

/-- `header.includes("paid")` (tsx:105). -/
def hPaid (h : String) : Bool := hasSub h "paid"

/-- The untyped transaction object accumulated by `parseCSV`
(UploadSection.tsx:82-108); every field starts as JS `undefined`,
modelled by `none`. -/
structure CSVTx where
  date : Option String := none
  category : Option String := none
  subcategory : Option String := none
  income : Option ℚ := none
  expense : Option ℚ := none
  note : Option String := none
  paid_from : Option String := none
deriving DecidableEq, Repr

/-- One iteration of the `headers.forEach` body (UploadSection.tsx:83-108):
the if-else chain assigning one field of the transaction from header `h`
and cell value `v`. -/
def applyHeader (tr : CSVTx) (h : String) (v : String) : CSVTx :=
  if hDate h then { tr with date := some (normalizeDate v) }
  else if hCat h then { tr with category := some v }
  else if hSub h then { tr with subcategory := some v }
  else if hInc h then { tr with income := some (parseNumber v) }
  else if hExp h then { tr with expense := some (parseNumber v) }
  else if hNote h then { tr with note := some v }
  else if hPaid h then { tr with paid_from := some v }
  else tr

/-- `headers.forEach((header, index) => ...)` with the running index:
`values[index] || ""` is `values.getD i ""` (an out-of-range index reads
`undefined`, which `|| ""` turns into the empty string, and an empty cell
likewise stays empty). -/
def buildTxGo (values : List String) : CSVTx → Nat → List String → CSVTx
  | tr, _, [] => tr
  | tr, i, h :: hs => buildTxGo values (applyHeader tr h (values.getD i "")) (i + 1) hs

/-- The transaction object built from one data row. -/
def buildTx (headers values : List String) : CSVTx :=
  buildTxGo values {} 0 headers

/-- JS truthiness of an optional string: `undefined` and `""` are falsy. -/
def jsTruthy (o : Option String) : Bool := !(o.getD "").isEmpty

/-- Splitting on a single character, modelling `str.split("\n")` and
`str.split('-')` (`splitByP` keeps empty segments, as JS does). -/
def splitCh (c : Char) : List Char → List (List Char) :=
  splitByP (fun x => x = c)

/-- The lines of the CSV text: `text.trim().split("\n")`
(UploadSection.tsx:74). -/
def csvLines (text : String) : List (List Char) :=
  splitCh '\n' (jsTrimL text.data)

/-- The lower-cased trimmed header names:
`parseCSVLine(lines[0]).map(h => h.trim().toLowerCase())` (tsx:75). -/
def csvHeaders (text : String) : List String :=
  (csvLineGo ((csvLines text).headD []) [] false).map
    (fun h => ⟨(jsTrimL h.data).map Char.toLower⟩)

/-- The data rows of the CSV text (`lines[1..]`). -/
def csvDataRows (text : String) : List (List Char) :=
  (csvLines text).drop 1

/-- The body of the row loop (UploadSection.tsx:79-112): tokenize the
row, skip it when it has fewer than 3 fields, otherwise build the
transaction object and accept it only when both date and category are
truthy. -/
def processRow (headers : List String) (row : List Char) : Option CSVTx :=
  let values := csvLineGo row [] false
  if values.length < 3 then none
  else
    let tr := buildTx headers values
    if jsTruthy tr.date ∧ jsTruthy tr.category then some tr else none

/-- `parseCSV` (UploadSection.tsx:73-116). -/
def parseCSV (text : String) : List CSVTx :=
  (csvDataRows text).filterMap (processRow (csvHeaders text))

/-- A row of the `transactions` relation as prepared for bulk insert
(UploadSection.tsx:138-149). -/
structure InsertRecord where
  book_id : String
  user_id : String
  date : String
  category : String
  subcategory : Option String
  income : ℚ
  expense : ℚ
  note : Option String
  paid_from : Option String
  labels : Option (List String)
deriving DecidableEq, Repr

/-- `x || "fallback"` on an optional string. -/
def jsOrStr (o : Option String) (d : String) : String :=
  if (o.getD "").isEmpty then d else o.getD ""

/-- `x || null` on an optional string: `undefined` and `""` give `null`. -/
def jsOrNull (o : Option String) : Option String :=
  if (o.getD "").isEmpty then none else o

/-- `x || 0` on an optional number (`undefined` gives 0; over `ℚ` a
parsed 0 is the same value as the fallback 0). -/
def jsOrZero (o : Option ℚ) : ℚ := o.getD 0

/-- The element mapping of `transactionsToInsert`
(UploadSection.tsx:138-149). -/
def prepareInsert (bookId userId : String) (t : CSVTx) : InsertRecord :=
  { book_id := bookId
    user_id := userId
    date := t.date.getD ""
    category := jsOrStr t.category "Uncategorized"
    subcategory := jsOrNull t.subcategory
    income := jsOrZero t.income
    expense := jsOrZero t.expense
    note := jsOrNull t.note
    paid_from := jsOrNull t.paid_from
    labels := none }

/-- `String.prototype.endsWith`. -/
def jsEndsWith (s suffix : String) : Bool :=
  suffix.data.isSuffixOf s.data

/-- The user-visible outcome of an upload attempt. -/
inductive UploadToast where
  | errorNotCsv
  | errorNoRows
  | success (n : Nat)
deriving DecidableEq, Repr

/-- Result of `handleFileSelect`: the notification shown and the batch
handed to the storage insert (`none` when no insert is attempted). -/
structure UploadOutcome where
  toast : UploadToast
  inserted : Option (List InsertRecord)
deriving DecidableEq, Repr

/-- The decision logic of `handleFileSelect` (UploadSection.tsx:118-168):
a file whose name does not end in `.csv` is rejected before parsing; a
parse with zero valid rows is rejected before any write; otherwise the
prepared batch is inserted and a success toast is shown.  (The external
storage call itself and its transport errors are outside the model.) -/
def handleFileSelect (fileName bookId userId : String) (text : String) : UploadOutcome :=
  if !jsEndsWith fileName ".csv" then ⟨.errorNotCsv, none⟩
  else
    let parsed := parseCSV text
    if parsed.length = 0 then ⟨.errorNoRows, none⟩
    else ⟨.success parsed.length, some (parsed.map (prepareInsert bookId userId))⟩

/-- A transaction row as loaded from the `transactions` relation and
consumed by the chart components (`Transaction` in Dashboard.tsx): a
canonical `YYYY-MM-DD` date string, a category, an optional subcategory
and the two amounts. -/
structure Tx where
  date : String
  category : String
  subcategory : Option String
  income : ℚ
  expense : ℚ
deriving DecidableEq, Repr

/-- A `{ name, value }` chart datum. -/
structure Entry where
  name : String
  value : ℚ
deriving DecidableEq, Repr

/-- The `acc.find(item => item.name === n)` / `existing.value += v` /
`acc.push({name: n, value: v})` step of the grouping reduce (chart
section, part_001:26-36): update the first entry with the given name in
place, or append a new entry at the end. -/
def addTo : List Entry → String → ℚ → List Entry
  | [], n, v => [⟨n, v⟩]
  | e :: rest, n, v =>
    if e.name = n then ⟨e.name, e.value + v⟩ :: rest
    else e :: addTo rest n v

/-- `categoryData` (part_001:26-36): group the transactions with positive
expense by their raw category string, summing expenses, in encounter
order. -/
def categoryData (ts : List Tx) : List Entry :=
  ts.foldl (fun acc t => if 0 < t.expense then addTo acc t.category t.expense else acc) []

/-- Stable insertion of a later element under a JS sort comparator:
`keep x e` says the comparator puts existing `x` (at or) before incoming
`e` (`cmp(x, e) ≤ 0`), in which case `e` moves past it; ties keep the
earlier element first, which is exactly the guarantee of the
specification-mandated stable `Array.prototype.sort`. -/
def insBy (keep : α → α → Bool) (e : α) : List α → List α
  | [] => [e]
  | x :: xs => if keep x e then x :: insBy keep e xs else e :: x :: xs

/-- Stable sort by a JS comparator, processing elements in array order. -/
def jsSortBy (keep : α → α → Bool) (l : List α) : List α :=
  l.foldl (fun acc e => insBy keep e acc) []

/-- The `keep` relation of the comparator `(a, b) => b.value - a.value`:
`x` stays before `e` exactly when `e.value - x.value ≤ 0` fails to be
positive, i.e. when `e.value ≤ x.value`. -/
def keepDesc (x e : Entry) : Bool := e.value ≤ x.value

/-- `[...].sort((a, b) => b.value - a.value)` on chart data. -/
def sortDesc (l : List Entry) : List Entry := jsSortBy keepDesc l

/-- Sort the grouped entries by descending value and keep the first `n`:
the Top-N selection pattern of the chart components. -/
def topSelect (n : Nat) (l : List Entry) : List Entry := (sortDesc l).take n

/-- `topExpenses` (part_001:52): Top-5 categories for the category
cards. -/
def topExpenses (ts : List Tx) : List Entry := topSelect 5 (categoryData ts)

/-- `Number(value.toFixed(2))`: round to two decimals, ties away from
zero on the positive values at hand (the ECMAScript `toFixed` picks the
larger candidate on ties). -/
def toFixed2 (q : ℚ) : ℚ := (⌊q * 100 + 1 / 2⌋ : ℚ) / 100

/-- The insertion-ordered grouping underlying `categoryData` in the
time-windowed chart section (part_002:116-127), including the
two-decimal rounding of each group sum. -/
def groupedCat2 (ts : List Tx) : List Entry :=
  (ts.foldl (fun acc t => if 0 < t.expense then addTo acc t.category t.expense else acc)
      []).map (fun e => ⟨e.name, toFixed2 e.value⟩)

/-- `categoryData` of the time-windowed chart section (part_002:116-129):
the grouping, rounded and sorted by descending value. -/
def categoryData2 (ts : List Tx) : List Entry := sortDesc (groupedCat2 ts)

/-- `currentData.slice(0, 10)` (part_002:410): the Top-10 bar-chart
data. -/
def top10Bars (ts : List Tx) : List Entry := (categoryData2 ts).take 10

/-- `new Date(y, ...).getFullYear()`: a two-digit year passed to the
`Date` constructor means 1900 + y. -/
def jsFullYear (y : Nat) : Nat := if y < 100 then y + 1900 else y

/-- The English month abbreviations used by `format(d, "MMM")`; `m` is
the 1-based month of the date string.  (Out-of-range months would make
the JS `Date` roll over into adjacent years; no input of interest does,
so the fallback is arbitrary.) -/
def monthAbbr (m : Nat) : String :=
  ["Jan", "Feb", "Mar", "Apr", "May", "Jun",
   "Jul", "Aug", "Sep", "Oct", "Nov", "Dec"].getD (m - 1) "Jan"

/-- `format(d, "yyyy")`: the year, zero-padded to four digits. -/
def pad4 (n : Nat) : String :=
  let s := toString n
  if 4 ≤ s.length then s else ⟨List.replicate (4 - s.length) '0' ++ s.data⟩

/-- `format(d, "MMM yyyy")` for the date built from numeric year and
month. -/
def monthLabel (y m : Nat) : String := monthAbbr m ++ " " ++ pad4 (jsFullYear y)

/-- The month key of a transaction (part_002:159-161):
`t.date.split('-')` mapped through `Number`, fed to
`new Date(year, month - 1, day)` and formatted `"MMM yyyy"`.  Date
strings are the canonical all-digit `YYYY-MM-DD` of the data model, on
which `Number` is the digit value. -/
def txMonthKey (t : Tx) : String :=
  let ps := splitCh '-' t.date.data
  monthLabel (digitsVal (ps.getD 0 [])) (digitsVal (ps.getD 1 []))

/-- Days from the civil epoch 1970-01-01 (the standard civil-calendar
day-count algorithm, with C-style truncated integer division as in the
reference implementation). -/
def daysFromCivil (y m d : Int) : Int :=
  let y1 : Int := if m ≤ 2 then y - 1 else y
  let era : Int := (if 0 ≤ y1 then y1 else y1 - 399) / 400
  let yoe : Int := y1 - era * 400
  let mp : Int := (m + 9) % 12
  let doy : Int := (153 * mp + 2) / 5 + d - 1
  let doe : Int := yoe * 365 + yoe / 4 - yoe / 100 + doy
  era * 146097 + doe - 719468

/-- Model of date-fns `parseISO`, to the extent exercised here: the
input is split at spaces (the date/time delimiter); more than two
segments is not ISO 8601 and yields an invalid date (`none`, modelling a
`NaN` time value); otherwise a plain `YYYY-MM-DD` first segment yields
its timestamp (at day granularity scaled to milliseconds; any time-of-day
segment is ignored, which no comparison here can observe).  In
`monthlyData` the argument is always `"MMM yyyy 01"` — three segments —
so the result there is always `none`. -/
def jsParseISO (s : String) : Option Int :=
  let parts := splitCh ' ' s.data
  if 2 < parts.length then none
  else
    match splitCh '-' (parts.headD []) with
    | [ys, ms, ds] =>
      if ys.length == 4 && allDigits ys && ms.length == 2 && allDigits ms &&
          ds.length == 2 && allDigits ds then
        some (86400000 * daysFromCivil (digitsVal ys) (digitsVal ms) (digitsVal ds))
      else none
    | _ => none

/-- One month bucket of `monthlyExpenses` (part_002:154-167): the
`"MMM yyyy"` key and the per-category expense record, both in insertion
order. -/
structure MonthCats where
  month : String
  cats : List Entry
deriving DecidableEq, Repr

/-- `monthlyExpenses[monthKey][category] += expense` with creation of
missing keys, preserving insertion order at both levels. -/
def addMonthCat : List MonthCats → String → String → ℚ → List MonthCats
  | [], mk, cat, v => [⟨mk, addTo [] cat v⟩]
  | b :: rest, mk, cat, v =>
    if b.month = mk then ⟨b.month, addTo b.cats cat v⟩ :: rest
    else b :: addMonthCat rest mk cat v

/-- One element of the `monthlyData` chart array (part_002:170-176). -/
structure MonthBucket where
  month : String
  total : ℚ
  sortKey : Option Int
deriving DecidableEq, Repr

/-- The `keep` relation of the comparator
`(a, b) => a.sortDate.getTime() - b.sortDate.getTime()`: an invalid date
has `NaN` time, the comparator value is then `NaN`, and the ECMAScript
`SortCompare` treats a `NaN` comparator result as `+0`, so the pair is
left in its existing order (`keep` holds). -/
def keepMonth (a b : MonthBucket) : Bool :=
  match a.sortKey, b.sortKey with
  | some x, some y => x ≤ y
  | _, _ => true

/-- `monthlyData` (part_002:151-178) for the monthly view: bucket ALL
transactions with positive expense by calendar month of their date
(label `"MMM yyyy"`), keep per-category sums, then map each bucket to
its label, rounded total and `parseISO(month + " 01")` sort key, and
sort with the comparator above. -/
def monthlyData (ts : List Tx) : List MonthBucket :=
  let raw := ts.foldl
    (fun acc t =>
      if 0 < t.expense then addMonthCat acc (txMonthKey t) t.category t.expense else acc)
    []
  let arr := raw.map (fun b =>
    { month := b.month
      total := toFixed2 ((b.cats.map (fun e => e.value)).sum)
      sortKey := jsParseISO (b.month ++ " 01") })
  jsSortBy keepMonth arr

/-- The three period granularities of the chart section. -/
inductive TimePeriod where
  | weekly
  | monthly
  | yearly
deriving DecidableEq, Repr

/-- The full `monthlyData` memo including its early return
(part_002:152): any non-monthly period yields an empty array. -/
def monthlyDataFor (tp : TimePeriod) (ts : List Tx) : List MonthBucket :=
  if tp = .monthly then monthlyData ts else []

/-- Canonical `YYYY-MM-DD` shape: exactly three all-digit segments of
lengths 4, 2, 2, and every character a digit or a dash (so both
separators are dashes). -/
def isCanonicalYMD (l : List Char) : Bool :=
  (match splitByP isSep l with
   | [a, b, c] =>
     a.length == 4 && b.length == 2 && c.length == 2 &&
     allDigits a && allDigits b && allDigits c
   | _ => false) &&
  l.all (fun c => isDig c || c = '-')

/-- The three numeric components of a separator-delimited date string,
in segment order. -/
def componentsOf (l : List Char) : Option (Nat × Nat × Nat) :=
  match splitByP isSep l with
  | [a, b, c] => some (digitsVal a, digitsVal b, digitsVal c)
  | _ => none

/-- A header reaches the `income` branch of the `parseCSV` if-else chain
exactly when the four earlier tests fail and it contains `"income"`. -/
def mapsToIncome (h : String) : Bool :=
  !hDate h && !hCat h && !hSub h && hInc h

/-- A header reaches the `expense` branch exactly when the five earlier
tests fail and it contains `"expense"`. -/
def mapsToExpense (h : String) : Bool :=
  !hDate h && !hCat h && !hSub h && !hInc h && hExp h

/-- The value currently recorded for group `n` in a chart data list
(the value field of the first entry `find?` locates, as the JS grouping
does). -/
def lookupV (l : List Entry) (n : String) : Option ℚ :=
  (l.find? (fun e => e.name == n)).map Entry.value

/-- Total expense of the transactions with category `n` and positive
expense — the sum a correct grouping must assign to group `n`. -/
def sumFor (ts : List Tx) (n : String) : ℚ :=
  ((ts.filter (fun t => t.category == n && decide (0 < t.expense))).map
    (fun t => t.expense)).sum

/-- Whether some transaction contributes to group `n` (positive expense,
matching category). -/
def presentFor (ts : List Tx) (n : String) : Bool :=
  ts.any (fun t => t.category == n && decide (0 < t.expense))

/-! ## General utility lemmas -/

theorem jsTrimL_eq_rdrop (l : List Char) :
    jsTrimL l = List.rdropWhile isWS (l.dropWhile isWS) := rfl

theorem dropWhile_jsTrimL (l : List Char) :
    List.dropWhile isWS (jsTrimL l) = jsTrimL l := by
  rw [jsTrimL_eq_rdrop]
  rcases h : List.rdropWhile isWS (l.dropWhile isWS) with _ | ⟨x, xs⟩
  · rfl
  · have hpre : List.rdropWhile isWS (l.dropWhile isWS) <+: l.dropWhile isWS :=
      List.rdropWhile_prefix _ _
    obtain ⟨t, ht⟩ := hpre
    rw [h] at ht
    have hx : isWS x = false := by
      have hh := List.dropWhile_idempotent (p := isWS) (l := l)
      rw [← ht] at hh
      by_contra hxx
      rw [Bool.not_eq_false] at hxx
      rw [List.cons_append, List.dropWhile_cons_of_pos hxx] at hh
      have hlen := congrArg List.length hh
      have hle : (List.dropWhile isWS (xs ++ t)).length ≤ (xs ++ t).length :=
        (List.dropWhile_suffix isWS).sublist.length_le
      simp at hlen hle
      omega
    simp [List.dropWhile_cons_of_neg, hx]

theorem jsTrimL_idem (l : List Char) : jsTrimL (jsTrimL l) = jsTrimL l := by
  rw [jsTrimL_eq_rdrop (jsTrimL l), dropWhile_jsTrimL, jsTrimL_eq_rdrop,
    List.rdropWhile_idempotent]

theorem jsTrimL_sublist (l : List Char) : List.Sublist (jsTrimL l) l :=
  ((List.rdropWhile_prefix _ _).sublist).trans (List.dropWhile_suffix _).sublist

theorem jsTrimL_eq_self (l : List Char) (h : ∀ c ∈ l, isWS c = false) :
    jsTrimL l = l := by
  unfold jsTrimL
  have h1 : l.dropWhile isWS = l := by
    cases l with
    | nil => rfl
    | cons x xs =>
      rw [List.dropWhile_cons_of_neg]
      simp [h x (by simp)]
  rw [h1]
  have h2 : l.reverse.dropWhile isWS = l.reverse := by
    cases hr : l.reverse with
    | nil => rfl
    | cons x xs =>
      rw [List.dropWhile_cons_of_neg]
      have : x ∈ l := by
        rw [← List.mem_reverse, hr]; simp
      simp [h x this]
  rw [h2, List.reverse_reverse]

theorem splitByP_ne_nil (p : Char → Bool) (l : List Char) : splitByP p l ≠ [] := by
  cases l with
  | nil => simp [splitByP]
  | cons c cs =>
    unfold splitByP
    split
    · simp
    · rcases splitByP p cs with _ | ⟨s, ss⟩ <;> simp

theorem splitByP_sepFree (p : Char → Bool) (l : List Char)
    (h : ∀ c ∈ l, p c = false) : splitByP p l = [l] := by
  induction l with
  | nil => rfl
  | cons c cs ih =>
    unfold splitByP
    rw [if_neg (by simp [h c (by simp)])]
    rw [ih (fun x hx => h x (by simp [hx]))]

theorem splitByP_append (p : Char → Bool) (a : List Char) (s : Char)
    (rest : List Char) (ha : ∀ c ∈ a, p c = false) (hs : p s = true) :
    splitByP p (a ++ s :: rest) = a :: splitByP p rest := by
  induction a with
  | nil => simp [splitByP, hs]
  | cons c a' ih =>
    have hc : p c = false := ha c (by simp)
    have hrec := ih (fun x hx => ha x (by simp [hx]))
    simp [splitByP, hc, hrec]

theorem isSep_eq_false_of_isDig {c : Char} (h : isDig c = true) :
    isSep c = false := by
  by_contra hne
  rw [Bool.not_eq_false] at hne
  have : c = '/' ∨ c = '-' := by simpa [isSep] using hne
  rcases this with rfl | rfl <;> exact absurd h (by decide)

theorem isWS_eq_false_of_isDig {c : Char} (h : isDig c = true) :
    isWS c = false := by
  by_contra hne
  rw [Bool.not_eq_false] at hne
  simp only [isWS, Bool.or_eq_true, decide_eq_true_eq] at hne
  rcases hne with ((((((((rfl | rfl) | rfl) | rfl) | rfl) | rfl) | rfl) | rfl) | rfl) | rfl <;>
    exact absurd h (by decide)

theorem digitsVal_replicate_zero (k : Nat) (l : List Char) :
    digitsVal (List.replicate k '0' ++ l) = digitsVal l := by
  induction k with
  | zero => simp
  | succ n ih =>
    rw [List.replicate_succ, List.cons_append]
    show digitsVal (List.replicate n '0' ++ l) = digitsVal l
    exact ih

theorem pad2_allDigits {m : List Char} (h : allDigits m = true) :
    allDigits (pad2 m) = true := by
  unfold pad2
  split
  · exact h
  · simp only [allDigits] at h ⊢
    rw [List.all_append, Bool.and_eq_true]
    refine ⟨?_, h⟩
    rw [List.all_eq_true]
    intro c hc
    rw [List.eq_of_mem_replicate hc]
    decide

theorem pad2_length {m : List Char} (h : m.length = 1 ∨ m.length = 2) :
    (pad2 m).length = 2 := by
  unfold pad2
  rcases h with h | h <;> simp [h]

theorem pad2_of_length_two {m : List Char} (h : m.length = 2) :
    pad2 m = m := by
  unfold pad2
  rw [if_pos (by omega)]

theorem digitsVal_pad2 (m : List Char) : digitsVal (pad2 m) = digitsVal m := by
  unfold pad2
  split
  · rfl
  · exact digitsVal_replicate_zero _ _

/-! ## parseCSVLine lemmas -/

theorem trimmedField_props (cur : List Char)
    (hcur : cur.all (fun c => c != '"') = true) :
    jsTrim (⟨jsTrimL cur⟩ : String) = ⟨jsTrimL cur⟩ ∧
    (⟨jsTrimL cur⟩ : String).data.all (fun c => c != '"') = true := by
  constructor
  · show (⟨jsTrimL (jsTrimL cur)⟩ : String) = ⟨jsTrimL cur⟩
    exact congrArg _ (jsTrimL_idem cur)
  · show (jsTrimL cur).all (fun c => c != '"') = true
    rw [List.all_eq_true] at hcur ⊢
    intro x hx
    exact hcur x ((jsTrimL_sublist cur).subset hx)

theorem csvLineGo_length (cs : List Char) : ∀ (cur : List Char) (q : Bool),
    (csvLineGo cs cur q).length = countUQC cs q + 1 := by
  induction cs with
  | nil => intro cur q; rfl
  | cons c rest ih =>
    intro cur q
    unfold csvLineGo countUQC
    by_cases h1 : c = '"'
    · rw [if_pos h1, if_pos h1]
      exact ih cur (!q)
    · rw [if_neg h1, if_neg h1]
      by_cases h2 : c = ',' ∧ q = false
      · rw [if_pos h2, if_pos h2, List.length_cons, ih [] q]
      · rw [if_neg h2, if_neg h2]
        exact ih (cur ++ [c]) q

theorem csvLineGo_fields (cs : List Char) : ∀ (cur : List Char) (q : Bool),
    cur.all (fun c => c != '"') = true →
    ∀ f ∈ csvLineGo cs cur q,
      jsTrim f = f ∧ f.data.all (fun c => c != '"') = true := by
  induction cs with
  | nil =>
    intro cur q hcur f hf
    simp only [csvLineGo, List.mem_singleton] at hf
    subst hf
    exact trimmedField_props cur hcur
  | cons c rest ih =>
    intro cur q hcur f hf
    unfold csvLineGo at hf
    by_cases h1 : c = '"'
    · rw [if_pos h1] at hf
      exact ih cur (!q) hcur f hf
    · rw [if_neg h1] at hf
      by_cases h2 : c = ',' ∧ q = false
      · rw [if_pos h2] at hf
        rcases List.mem_cons.mp hf with rfl | hf'
        · exact trimmedField_props cur hcur
        · exact ih [] q (by simp) f hf'
      · rw [if_neg h2] at hf
        refine ih (cur ++ [c]) q ?_ f hf
        rw [List.all_eq_true] at hcur ⊢
        intro x hx
        rcases List.mem_append.mp hx with hx | hx
        · exact hcur x hx
        · rw [List.mem_singleton] at hx
          subst hx
          simpa using h1

/-- Claim C10: for every input line, `parseCSVLine` returns a non-empty
list of fields whose length is one plus the number of commas outside
quoted spans, every field is fixed by trimming (surrounding whitespace
removed), and no field contains a double quote (quotes only toggle the
state and are dropped). -/
theorem parseCSVLine_fields (line : String) :
    parseCSVLine line ≠ [] ∧
    (parseCSVLine line).length = countUQC line.data false + 1 ∧
    ∀ f ∈ parseCSVLine line,
      jsTrim f = f ∧ f.data.all (fun c => c != '"') = true := by
  refine ⟨?_, csvLineGo_length _ _ _, csvLineGo_fields _ _ _ (by simp)⟩
  have h := csvLineGo_length line.data [] false
  intro hnil
  rw [parseCSVLine] at hnil
  rw [hnil] at h
  simp at h

/-- Witness for C10 at the concrete line `a, "x,y" `. -/
theorem parseCSVLine_fields_witness :
    parseCSVLine "a, \"x,y\" " ≠ [] ∧
    (parseCSVLine "a, \"x,y\" ").length = countUQC "a, \"x,y\" ".data false + 1 ∧
    (jsTrim "x,y" = "x,y" ∧ "x,y".data.all (fun c => c != '"') = true) :=
  ⟨(parseCSVLine_fields "a, \"x,y\" ").1, (parseCSVLine_fields "a, \"x,y\" ").2.1,
   (parseCSVLine_fields "a, \"x,y\" ").2.2 "x,y" (by decide)⟩

/-! ## parseCSV row-skipping lemmas -/

theorem filterMap_filter_eq {α β : Type} (f : α → Option β) (p : α → Bool)
    (h : ∀ a, p a = false → f a = none) :
    ∀ l : List α, l.filterMap f = (l.filter p).filterMap f := by
  intro l
  induction l with
  | nil => rfl
  | cons x xs ih =>
    by_cases hp : p x = true
    · rw [List.filter_cons_of_pos hp]
      cases hfx : f x <;> simp [List.filterMap_cons, hfx, ih]
    · have hnone := h x (by simpa using hp)
      rw [List.filter_cons_of_neg (by simpa using hp)]
      simp [List.filterMap_cons, hnone, ih]

/-- Claim C5: every data row that tokenizes to fewer than 3 fields is
skipped by `parseCSV` — the output is unchanged when the input rows are
restricted to those with at least 3 fields (so short rows contribute no
record, and the model has no per-row error channel to fire) — and the
data rows partition into the kept ones and the discarded short ones. -/
theorem parseCSV_short_rows (text : String) :
    parseCSV text =
      ((csvDataRows text).filter
        (fun r => decide (3 ≤ (csvLineGo r [] false).length))).filterMap
        (processRow (csvHeaders text)) ∧
    (csvDataRows text).length =
      ((csvDataRows text).filter
        (fun r => decide (3 ≤ (csvLineGo r [] false).length))).length +
      ((csvDataRows text).filter
        (fun r => decide ((csvLineGo r [] false).length < 3))).length := by
  constructor
  · refine filterMap_filter_eq _ _ (fun r hr => ?_) _
    have hlt : (csvLineGo r [] false).length < 3 := by
      simpa [Nat.not_le] using hr
    simp [processRow, hlt]
  · have hpart := List.length_eq_length_filter_add
      (l := csvDataRows text) (fun r => decide (3 ≤ (csvLineGo r [] false).length))
    have hsame : (csvDataRows text).filter
        (fun r => !(decide (3 ≤ (csvLineGo r [] false).length))) =
        (csvDataRows text).filter
        (fun r => decide ((csvLineGo r [] false).length < 3)) :=
      List.filter_congr (fun r _ => by
        rw [← decide_not]
        exact decide_eq_decide.mpr Nat.not_le)
    rw [hpart, hsame]

/-! ## normalizeDate lemmas -/

theorem allDigits_isSep_free {x : List Char} (hx : allDigits x = true) :
    ∀ c ∈ x, isSep c = false := by
  intro c hc
  rw [allDigits, List.all_eq_true] at hx
  exact isSep_eq_false_of_isDig (hx c hc)

theorem matchYMD_elim {l : List Char} (hm : matchYMD l = true) :
    ∃ a b c, splitByP isSep l = [a, b, c] ∧ a.length = 4 ∧ allDigits a = true ∧
      (b.length = 1 ∨ b.length = 2) ∧ allDigits b = true ∧
      (c.length = 1 ∨ c.length = 2) ∧ allDigits c = true := by
  rcases hsp : splitByP isSep l with _ | ⟨a, _ | ⟨b, _ | ⟨c, _ | ⟨d, rest⟩⟩⟩⟩ <;>
    (unfold matchYMD at hm; rw [hsp] at hm; simp at hm)
  obtain ⟨⟨⟨⟨⟨h1, h2⟩, h3⟩, h4⟩, h5⟩, h6⟩ := hm
  exact ⟨a, b, c, rfl, h1, h2, h3, h4, h5, h6⟩

theorem matchMDY_elim {l : List Char} (hm : matchMDY l = true) :
    ∃ a b c, splitByP isSep l = [a, b, c] ∧ (a.length = 1 ∨ a.length = 2) ∧
      allDigits a = true ∧ (b.length = 1 ∨ b.length = 2) ∧ allDigits b = true ∧
      c.length = 4 ∧ allDigits c = true := by
  rcases hsp : splitByP isSep l with _ | ⟨a, _ | ⟨b, _ | ⟨c, _ | ⟨d, rest⟩⟩⟩⟩ <;>
    (unfold matchMDY at hm; rw [hsp] at hm; simp at hm)
  obtain ⟨⟨⟨⟨⟨h1, h2⟩, h3⟩, h4⟩, h5⟩, h6⟩ := hm
  exact ⟨a, b, c, rfl, h1, h2, h3, h4, h5, h6⟩

theorem splitByP_canonical (y m d : List Char) (hy : allDigits y = true)
    (hm : allDigits m = true) (hd : allDigits d = true) :
    splitByP isSep (y ++ ('-' :: (pad2 m ++ ('-' :: pad2 d)))) = [y, pad2 m, pad2 d] := by
  rw [splitByP_append isSep y '-' _ (allDigits_isSep_free hy) (by decide)]
  rw [splitByP_append isSep (pad2 m) '-' _
    (allDigits_isSep_free (pad2_allDigits hm)) (by decide)]
  rw [splitByP_sepFree isSep _ (allDigits_isSep_free (pad2_allDigits hd))]

theorem matchYMD_canonical {y m d : List Char} (hy4 : y.length = 4)
    (hyd : allDigits y = true) (hm12 : m.length = 1 ∨ m.length = 2)
    (hmd : allDigits m = true) (hd12 : d.length = 1 ∨ d.length = 2)
    (hdd : allDigits d = true) :
    matchYMD (y ++ ('-' :: (pad2 m ++ ('-' :: pad2 d)))) = true := by
  unfold matchYMD
  rw [splitByP_canonical y m d hyd hmd hdd]
  simp [hy4, pad2_length hm12, pad2_length hd12, hyd,
    pad2_allDigits hmd, pad2_allDigits hdd]

theorem mem_canonical_cases {y m d : List Char} {c : Char}
    (hc : c ∈ y ++ ('-' :: (pad2 m ++ ('-' :: pad2 d)))) :
    c ∈ y ∨ c = '-' ∨ c ∈ pad2 m ∨ c ∈ pad2 d := by
  simp only [List.mem_append, List.mem_cons] at hc
  tauto

theorem trim_canonical {y m d : List Char} (hyd : allDigits y = true)
    (hmd : allDigits m = true) (hdd : allDigits d = true) :
    jsTrimL (y ++ ('-' :: (pad2 m ++ ('-' :: pad2 d)))) =
      y ++ ('-' :: (pad2 m ++ ('-' :: pad2 d))) := by
  refine jsTrimL_eq_self _ (fun c hc => ?_)
  rw [allDigits, List.all_eq_true] at hyd hmd hdd
  rcases mem_canonical_cases hc with h | rfl | h | h
  · exact isWS_eq_false_of_isDig (hyd c h)
  · decide
  · have := pad2_allDigits (by rw [allDigits, List.all_eq_true]; exact hmd)
    rw [allDigits, List.all_eq_true] at this
    exact isWS_eq_false_of_isDig (this c h)
  · have := pad2_allDigits (by rw [allDigits, List.all_eq_true]; exact hdd)
    rw [allDigits, List.all_eq_true] at this
    exact isWS_eq_false_of_isDig (this c h)

theorem renderYMD_canonical {y m d : List Char} (hyd : allDigits y = true)
    (hm12 : m.length = 1 ∨ m.length = 2) (hmd : allDigits m = true)
    (hd12 : d.length = 1 ∨ d.length = 2) (hdd : allDigits d = true) :
    renderYMD (y ++ ('-' :: (pad2 m ++ ('-' :: pad2 d)))) =
      y ++ ('-' :: (pad2 m ++ ('-' :: pad2 d))) := by
  simp only [renderYMD, splitByP_canonical y m d hyd hmd hdd]
  rw [pad2_of_length_two (pad2_length hm12), pad2_of_length_two (pad2_length hd12)]

theorem nd_of_matchYMD {l : List Char} (hne : l ≠ [])
    (h : matchYMD (jsTrimL l) = true) :
    normalizeDateL l = renderYMD (jsTrimL l) := by
  simp [normalizeDateL, List.isEmpty_iff, hne, h]

theorem nd_of_matchMDY {l : List Char} (hne : l ≠ [])
    (h1 : matchYMD (jsTrimL l) = false) (h2 : matchMDY (jsTrimL l) = true) :
    normalizeDateL l = renderMDY (jsTrimL l) := by
  simp [normalizeDateL, List.isEmpty_iff, hne, h1, h2]

theorem nd_of_nomatch {l : List Char} (h1 : matchYMD (jsTrimL l) = false)
    (h2 : matchMDY (jsTrimL l) = false) :
    normalizeDateL l = jsTrimL l := by
  by_cases hne : l = []
  · subst hne; rfl
  · simp [normalizeDateL, List.isEmpty_iff, hne, h1, h2]

theorem canonical_ne_nil {y m d : List Char} :
    y ++ ('-' :: (pad2 m ++ ('-' :: pad2 d))) ≠ [] := by
  simp

theorem normalizeDateL_canonical {y m d : List Char} (hy4 : y.length = 4)
    (hyd : allDigits y = true) (hm12 : m.length = 1 ∨ m.length = 2)
    (hmd : allDigits m = true) (hd12 : d.length = 1 ∨ d.length = 2)
    (hdd : allDigits d = true) :
    normalizeDateL (y ++ ('-' :: (pad2 m ++ ('-' :: pad2 d)))) =
      y ++ ('-' :: (pad2 m ++ ('-' :: pad2 d))) := by
  have htr := trim_canonical hyd hmd hdd
  rw [nd_of_matchYMD canonical_ne_nil
    (by rw [htr]; exact matchYMD_canonical hy4 hyd hm12 hmd hd12 hdd)]
  rw [htr]
  exact renderYMD_canonical hyd hm12 hmd hd12 hdd

theorem normalizeDateL_idem (l : List Char) :
    normalizeDateL (normalizeDateL l) = normalizeDateL l := by
  by_cases hne : l = []
  · subst hne; rfl
  by_cases h1 : matchYMD (jsTrimL l) = true
  · obtain ⟨a, b, c, hsp, h4, had, hb12, hbd, hc12, hcd⟩ := matchYMD_elim h1
    have hout : normalizeDateL l = a ++ ('-' :: (pad2 b ++ ('-' :: pad2 c))) := by
      rw [nd_of_matchYMD hne h1]
      unfold renderYMD
      rw [hsp]
    rw [hout]
    exact normalizeDateL_canonical h4 had hb12 hbd hc12 hcd
  · rw [Bool.not_eq_true] at h1
    by_cases h2 : matchMDY (jsTrimL l) = true
    · obtain ⟨a, b, c, hsp, ha12, had, hb12, hbd, h4, hcd⟩ := matchMDY_elim h2
      have hout : normalizeDateL l = c ++ ('-' :: (pad2 a ++ ('-' :: pad2 b))) := by
        rw [nd_of_matchMDY hne h1 h2]
        unfold renderMDY
        rw [hsp]
      rw [hout]
      exact normalizeDateL_canonical h4 hcd ha12 had hb12 hbd
    · rw [Bool.not_eq_true] at h2
      rw [nd_of_nomatch h1 h2]
      have h1i : matchYMD (jsTrimL (jsTrimL l)) = false := by
        rw [jsTrimL_idem]; exact h1
      have h2i : matchMDY (jsTrimL (jsTrimL l)) = false := by
        rw [jsTrimL_idem]; exact h2
      exact (nd_of_nomatch h1i h2i).trans (jsTrimL_idem l)

/-- Claim C8: on every string in either supported literal date pattern,
`normalizeDate` is idempotent (the canonical output renormalizes to
itself). -/
theorem normalizeDate_idem (s : String)
    (h : matchYMD s.data = true ∨ matchMDY s.data = true) :
    normalizeDate (normalizeDate s) = normalizeDate s := by
  show (⟨normalizeDateL (normalizeDateL s.data)⟩ : String) = ⟨normalizeDateL s.data⟩
  exact congrArg _ (normalizeDateL_idem s.data)

/-- Witness for C8 at the concrete pattern input `2024/3/5`. -/
theorem normalizeDate_idem_witness :
    (matchYMD "2024/3/5".data = true ∨ matchMDY "2024/3/5".data = true) ∧
    normalizeDate (normalizeDate "2024/3/5") = normalizeDate "2024/3/5" :=
  ⟨Or.inl (by decide), normalizeDate_idem "2024/3/5" (Or.inl (by decide))⟩

theorem componentsOf_canonical {y m d : List Char} (hyd : allDigits y = true)
    (hmd : allDigits m = true) (hdd : allDigits d = true) :
    componentsOf (y ++ ('-' :: (pad2 m ++ ('-' :: pad2 d)))) =
      some (digitsVal y, digitsVal m, digitsVal d) := by
  simp only [componentsOf, splitByP_canonical y m d hyd hmd hdd]
  rw [digitsVal_pad2, digitsVal_pad2]

theorem isCanonicalYMD_canonical {y m d : List Char} (hy4 : y.length = 4)
    (hyd : allDigits y = true) (hm12 : m.length = 1 ∨ m.length = 2)
    (hmd : allDigits m = true) (hd12 : d.length = 1 ∨ d.length = 2)
    (hdd : allDigits d = true) :
    isCanonicalYMD (y ++ ('-' :: (pad2 m ++ ('-' :: pad2 d)))) = true := by
  unfold isCanonicalYMD
  rw [Bool.and_eq_true]
  constructor
  · simp only [splitByP_canonical y m d hyd hmd hdd]
    simp [hy4, pad2_length hm12, pad2_length hd12, hyd,
      pad2_allDigits hmd, pad2_allDigits hdd]
  · rw [List.all_eq_true]
    intro c hc
    have digCase : ∀ x : List Char, allDigits x = true → c ∈ x →
        (isDig c || c = '-') = true := by
      intro x hx hm
      rw [allDigits, List.all_eq_true] at hx
      simp [hx c hm]
    rcases mem_canonical_cases hc with hin | rfl | hin | hin
    · exact digCase y hyd hin
    · decide
    · exact digCase _ (pad2_allDigits hmd) hin
    · exact digCase _ (pad2_allDigits hdd) hin

/-- Claim C2 (corrected): `normalizeDate` first trims the input; the two
literal date patterns are recognized against the trimmed string and
rewritten to canonical zero-padded `YYYY-MM-DD` preserving the numeric
components (year moved to the front for the month-first pattern); every
other input is returned trimmed — not unchanged. -/
theorem normalizeDate_amended (s : String) :
    (matchYMD (jsTrimL s.data) = false → matchMDY (jsTrimL s.data) = false →
      normalizeDate s = jsTrim s) ∧
    (matchYMD (jsTrimL s.data) = true →
      isCanonicalYMD (normalizeDate s).data = true ∧
      componentsOf (normalizeDate s).data = componentsOf (jsTrimL s.data)) ∧
    (matchYMD (jsTrimL s.data) = false → matchMDY (jsTrimL s.data) = true →
      isCanonicalYMD (normalizeDate s).data = true ∧
      ∃ a b y, splitByP isSep (jsTrimL s.data) = [a, b, y] ∧
        componentsOf (normalizeDate s).data =
          some (digitsVal y, digitsVal a, digitsVal b)) := by
  refine ⟨fun h1 h2 => ?_, fun h1 => ?_, fun h1 h2 => ?_⟩
  · show (⟨normalizeDateL s.data⟩ : String) = ⟨jsTrimL s.data⟩
    exact congrArg _ (nd_of_nomatch h1 h2)
  · obtain ⟨a, b, c, hsp, h4, had, hb12, hbd, hc12, hcd⟩ := matchYMD_elim h1
    by_cases hne : s.data = []
    · rw [hne] at h1
      exact absurd h1 (by decide)
    · have hout : (normalizeDate s).data = a ++ ('-' :: (pad2 b ++ ('-' :: pad2 c))) := by
        show normalizeDateL s.data = _
        rw [nd_of_matchYMD hne h1]
        unfold renderYMD
        rw [hsp]
      rw [hout]
      refine ⟨isCanonicalYMD_canonical h4 had hb12 hbd hc12 hcd, ?_⟩
      rw [componentsOf_canonical had hbd hcd]
      simp only [componentsOf, hsp]
  · obtain ⟨a, b, c, hsp, ha12, had, hb12, hbd, h4, hcd⟩ := matchMDY_elim h2
    by_cases hne : s.data = []
    · rw [hne] at h2
      exact absurd h2 (by decide)
    · have hout : (normalizeDate s).data = c ++ ('-' :: (pad2 a ++ ('-' :: pad2 b))) := by
        show normalizeDateL s.data = _
        rw [nd_of_matchMDY hne h1 h2]
        unfold renderMDY
        rw [hsp]
      rw [hout]
      refine ⟨isCanonicalYMD_canonical h4 hcd ha12 had hb12 hbd, ?_⟩
      exact ⟨a, b, c, hsp, componentsOf_canonical hcd had hbd⟩

/-- Counterexample to C2 as stated: the input `" abc "` matches neither
date pattern yet is not returned unchanged — it comes back trimmed. -/
theorem normalizeDate_changes_nonmatching :
    matchYMD " abc ".data = false ∧ matchMDY " abc ".data = false ∧
    matchYMD (jsTrimL " abc ".data) = false ∧
    matchMDY (jsTrimL " abc ".data) = false ∧
    normalizeDate " abc " = "abc" ∧ " abc " ≠ "abc" := by decide

/-- Witness for the amended C2 at concrete inputs in each of the three
branches. -/
theorem normalizeDate_amended_witness :
    normalizeDate "hi mom" = jsTrim "hi mom" ∧
    (isCanonicalYMD (normalizeDate "2024/3/5").data = true ∧
      componentsOf (normalizeDate "2024/3/5").data =
        componentsOf (jsTrimL "2024/3/5".data)) ∧
    (isCanonicalYMD (normalizeDate "3/5/2024").data = true ∧
      ∃ a b y, splitByP isSep (jsTrimL "3/5/2024".data) = [a, b, y] ∧
        componentsOf (normalizeDate "3/5/2024").data =
          some (digitsVal y, digitsVal a, digitsVal b)) :=
  ⟨(normalizeDate_amended "hi mom").1 (by decide) (by decide),
   (normalizeDate_amended "2024/3/5").2.1 (by decide),
   (normalizeDate_amended "3/5/2024").2.2 (by decide) (by decide)⟩

/-! ## parseCSV record invariants -/

theorem applyHeader_income (tr : CSVTx) (h v : String) :
    (applyHeader tr h v).income =
      if mapsToIncome h then some (parseNumber v) else tr.income := by
  unfold applyHeader mapsToIncome
  by_cases d1 : hDate h
  · simp [d1]
  · by_cases d2 : hCat h
    · simp [d1, d2]
    · by_cases d3 : hSub h
      · simp [d1, d2, d3]
      · by_cases d4 : hInc h
        · simp [d1, d2, d3, d4]
        · rw [if_neg d1, if_neg d2, if_neg d3, if_neg d4,
            if_neg (show ¬((!hDate h && !hCat h && !hSub h && hInc h) = true) by
              simp [d4])]
          split
          · rfl
          · split
            · rfl
            · split
              · rfl
              · rfl

theorem applyHeader_expense (tr : CSVTx) (h v : String) :
    (applyHeader tr h v).expense =
      if mapsToExpense h then some (parseNumber v) else tr.expense := by
  unfold applyHeader mapsToExpense
  by_cases d1 : hDate h
  · simp [d1]
  · by_cases d2 : hCat h
    · simp [d1, d2]
    · by_cases d3 : hSub h
      · simp [d1, d2, d3]
      · by_cases d4 : hInc h
        · simp [d1, d2, d3, d4]
        · by_cases d5 : hExp h
          · simp [d1, d2, d3, d4, d5]
          · rw [if_neg d1, if_neg d2, if_neg d3, if_neg d4, if_neg d5,
              if_neg (show ¬((!hDate h && !hCat h && !hSub h && !hInc h && hExp h) = true) by
                simp [d5])]
            split
            · rfl
            · split
              · rfl
              · rfl

theorem buildTxGo_income (values : List String) :
    ∀ (hs : List String) (i : Nat) (tr : CSVTx),
      (buildTxGo values tr i hs).income = tr.income ∨
      ∃ j, ∃ hj : j < hs.length, mapsToIncome (hs.get ⟨j, hj⟩) = true ∧
        (buildTxGo values tr i hs).income =
          some (parseNumber (values.getD (i + j) "")) := by
  intro hs
  induction hs with
  | nil => intro i tr; exact Or.inl rfl
  | cons h hs' ih =>
    intro i tr
    rw [buildTxGo]
    rcases ih (i + 1) (applyHeader tr h (values.getD i "")) with heq | ⟨j, hj, hmap, heq⟩
    · rw [applyHeader_income] at heq
      by_cases hm : mapsToIncome h = true
      · rw [if_pos hm] at heq
        right
        refine ⟨0, by simp, hm, ?_⟩
        rw [heq, Nat.add_zero]
      · rw [if_neg hm] at heq
        exact Or.inl heq
    · right
      have hidx : i + 1 + j = i + (j + 1) := by omega
      rw [hidx] at heq
      exact ⟨j + 1, Nat.succ_lt_succ hj, hmap, heq⟩

theorem buildTxGo_expense (values : List String) :
    ∀ (hs : List String) (i : Nat) (tr : CSVTx),
      (buildTxGo values tr i hs).expense = tr.expense ∨
      ∃ j, ∃ hj : j < hs.length, mapsToExpense (hs.get ⟨j, hj⟩) = true ∧
        (buildTxGo values tr i hs).expense =
          some (parseNumber (values.getD (i + j) "")) := by
  intro hs
  induction hs with
  | nil => intro i tr; exact Or.inl rfl
  | cons h hs' ih =>
    intro i tr
    rw [buildTxGo]
    rcases ih (i + 1) (applyHeader tr h (values.getD i "")) with heq | ⟨j, hj, hmap, heq⟩
    · rw [applyHeader_expense] at heq
      by_cases hm : mapsToExpense h = true
      · rw [if_pos hm] at heq
        right
        refine ⟨0, by simp, hm, ?_⟩
        rw [heq, Nat.add_zero]
      · rw [if_neg hm] at heq
        exact Or.inl heq
    · right
      have hidx : i + 1 + j = i + (j + 1) := by omega
      rw [hidx] at heq
      exact ⟨j + 1, Nat.succ_lt_succ hj, hmap, heq⟩

theorem jsTruthy_elim {o : Option String} (h : jsTruthy o = true) :
    ∃ s, o = some s ∧ s ≠ "" := by
  cases o with
  | none => exact absurd h (by decide)
  | some s =>
    refine ⟨s, rfl, fun hs => ?_⟩
    subst hs
    exact absurd h (by decide)

theorem mem_parseCSV_elim {text : String} {tr : CSVTx} (h : tr ∈ parseCSV text) :
    ∃ row ∈ csvDataRows text,
      3 ≤ (csvLineGo row [] false).length ∧
      tr = buildTx (csvHeaders text) (csvLineGo row [] false) ∧
      jsTruthy tr.date = true ∧ jsTruthy tr.category = true := by
  unfold parseCSV at h
  obtain ⟨row, hrow, hproc⟩ := List.mem_filterMap.mp h
  refine ⟨row, hrow, ?_⟩
  simp only [processRow] at hproc
  split at hproc
  · exact absurd hproc (by simp)
  · next hlen =>
    split at hproc
    · next hacc =>
      rw [Option.some_inj] at hproc
      subst hproc
      exact ⟨by omega, rfl, hacc.1, hacc.2⟩
    · exact absurd hproc (by simp)

theorem parseNumber_default (v : String)
    (h : v = "" ∨ jsParseFloat (v.data.filter (fun c => c ≠ ',')) = none) :
    parseNumber v = 0 := by
  rcases h with rfl | h
  · rfl
  · unfold parseNumber
    split
    · rfl
    · rw [h]
      rfl

/-- Claim C3: every record accepted by `parseCSV` has a present non-empty
date and a present non-empty category (rows failing this are dropped by
the acceptance test; the parser has no per-row error channel); a numeric
cell that is empty or unparsable yields `parseNumber` 0 (an absent cell
is read as the empty string by `values.getD`); and a built record's
income (resp. expense) field is either unset — no matching header, later
inserted as 0 — or exactly `parseNumber` of the cell at an income-
(resp. expense-) mapped header index. -/
theorem parseCSV_invariants (text : String) (headers values : List String)
    (v : String) :
    (∀ tr ∈ parseCSV text,
      (∃ d, tr.date = some d ∧ d ≠ "") ∧ ∃ c, tr.category = some c ∧ c ≠ "") ∧
    ((v = "" ∨ jsParseFloat (v.data.filter (fun c => c ≠ ',')) = none) →
      parseNumber v = 0) ∧
    ((buildTx headers values).income = none ∨
      ∃ j, ∃ hj : j < headers.length, mapsToIncome (headers.get ⟨j, hj⟩) = true ∧
        (buildTx headers values).income = some (parseNumber (values.getD j ""))) ∧
    ((buildTx headers values).expense = none ∨
      ∃ j, ∃ hj : j < headers.length, mapsToExpense (headers.get ⟨j, hj⟩) = true ∧
        (buildTx headers values).expense = some (parseNumber (values.getD j ""))) := by
  refine ⟨fun tr htr => ?_, parseNumber_default v, ?_, ?_⟩
  · obtain ⟨row, hrow, hlen, htr', hd, hc⟩ := mem_parseCSV_elim htr
    exact ⟨jsTruthy_elim hd, jsTruthy_elim hc⟩
  · have h := buildTxGo_income values headers 0 {}
    simpa [buildTx] using h
  · have h := buildTxGo_expense values headers 0 {}
    simpa [buildTx] using h

/-- Witness for C3: the record parsed from a concrete CSV has non-empty
date and category, and the unparsable cell `abc` parses to 0. -/
theorem parseCSV_invariants_witness :
    ((∃ d, ((parseCSV "Date,Category,Income\n2024-1-1,Food,abc").headD {}).date = some d ∧ d ≠ "") ∧
      ∃ c, ((parseCSV "Date,Category,Income\n2024-1-1,Food,abc").headD {}).category = some c ∧ c ≠ "") ∧
    parseNumber "abc" = 0 :=
  ⟨(parseCSV_invariants "Date,Category,Income\n2024-1-1,Food,abc" [] [] "abc").1
      ((parseCSV "Date,Category,Income\n2024-1-1,Food,abc").headD {})
      (by decide),
   (parseCSV_invariants "" [] [] "abc").2.1 (Or.inr (by decide))⟩

theorem parseNumber_neg5 : parseNumber "-5" = -5 := by
  have h : "-5".data = ['-', '5'] := by decide
  simp [parseNumber, jsParseFloat, h, List.filter, List.dropWhile, List.takeWhile,
    isWS, isDig, digitsVal]

/-- Counterexample to C4 as stated: the expense cell `-5` flows through
`parseNumber` unclamped, and the record prepared for insertion carries a
negative expense amount. -/
theorem prepared_negative_expense :
    ((parseCSV "Date,Category,Expense\n2024-1-1,Food,-5").map
        (prepareInsert "b1" "u1")).map (fun r => r.expense) = [-5] ∧
    ¬(0 : ℚ) ≤ (-5 : ℚ) := by
  constructor
  · have h1 : parseCSV "Date,Category,Expense\n2024-1-1,Food,-5" =
        [{ date := some "2024-01-01", category := some "Food", expense := some (parseNumber "-5") }] := rfl
    rw [h1, parseNumber_neg5]
    rfl
  · norm_num

/-- Claim C4 (amended): prepared records have non-negative income and
expense provided every cell of every data row parses to a non-negative
number; the parser itself never clamps, so a negative cell yields a
negative amount (see the counterexample). -/
theorem prepared_nonneg_amended (text bookId userId : String)
    (hcells : ∀ row ∈ csvDataRows text, ∀ cell ∈ csvLineGo row [] false,
      0 ≤ parseNumber cell) :
    ∀ r ∈ (parseCSV text).map (prepareInsert bookId userId),
      0 ≤ r.income ∧ 0 ≤ r.expense := by
  intro r hr
  obtain ⟨tr, htr, rfl⟩ := List.mem_map.mp hr
  obtain ⟨row, hrow, hlen, htr', hd, hc⟩ := mem_parseCSV_elim htr
  subst htr'
  have hcell0 : ∀ j : Nat, 0 ≤ parseNumber ((csvLineGo row [] false).getD j "") := by
    intro j
    by_cases hjl : j < (csvLineGo row [] false).length
    · refine hcells row hrow _ ?_
      rw [List.getD_eq_getElem _ _ hjl]
      exact List.getElem_mem hjl
    · rw [List.getD_eq_default _ _ (by omega)]
      exact le_refl 0
  constructor
  · show 0 ≤ jsOrZero (buildTx (csvHeaders text) (csvLineGo row [] false)).income
    rcases buildTxGo_income (csvLineGo row [] false) (csvHeaders text) 0 {} with
      hnone | ⟨j, hj, hmap, heq⟩
    · show 0 ≤ jsOrZero (buildTxGo (csvLineGo row [] false) {} 0 (csvHeaders text)).income
      rw [hnone]
      exact le_refl 0
    · show 0 ≤ jsOrZero (buildTxGo (csvLineGo row [] false) {} 0 (csvHeaders text)).income
      rw [heq]
      simpa [jsOrZero] using hcell0 (0 + j)
  · show 0 ≤ jsOrZero (buildTx (csvHeaders text) (csvLineGo row [] false)).expense
    rcases buildTxGo_expense (csvLineGo row [] false) (csvHeaders text) 0 {} with
      hnone | ⟨j, hj, hmap, heq⟩
    · show 0 ≤ jsOrZero (buildTxGo (csvLineGo row [] false) {} 0 (csvHeaders text)).expense
      rw [hnone]
      exact le_refl 0
    · show 0 ≤ jsOrZero (buildTxGo (csvLineGo row [] false) {} 0 (csvHeaders text)).expense
      rw [heq]
      simpa [jsOrZero] using hcell0 (0 + j)

/-- Witness for the amended C4 at a concrete CSV whose cells all parse to
0 (hence non-negatively). -/
theorem prepared_nonneg_amended_witness :
    0 ≤ (prepareInsert "b" "u" { date := some "d", category := some "Food", income := some 0 }).income ∧
    0 ≤ (prepareInsert "b" "u" { date := some "d", category := some "Food", income := some 0 }).expense :=
  prepared_nonneg_amended "Date,Category,Income\nd,Food,xyz" "b" "u" (by decide)
    (prepareInsert "b" "u" { date := some "d", category := some "Food", income := some 0 })
    (by decide)

/-- Claim C9: the bulk insert is attempted exactly when the file name
ends in `.csv` and parsing yields at least one record; a wrong extension
or an empty parse is rejected with an error toast and no batch is handed
to storage; when an insert does happen, the batch is exactly the
prepared records of the full successful parse. -/
theorem handleFileSelect_gate (fileName bookId userId text : String) :
    ((handleFileSelect fileName bookId userId text).inserted ≠ none ↔
      (jsEndsWith fileName ".csv" = true ∧ parseCSV text ≠ [])) ∧
    (jsEndsWith fileName ".csv" = false →
      handleFileSelect fileName bookId userId text =
        ⟨.errorNotCsv, none⟩) ∧
    (parseCSV text = [] →
      (handleFileSelect fileName bookId userId text).inserted = none) ∧
    (∀ recs, (handleFileSelect fileName bookId userId text).inserted = some recs →
      recs = (parseCSV text).map (prepareInsert bookId userId)) := by
  unfold handleFileSelect
  by_cases hcsv : jsEndsWith fileName ".csv" = true
  · by_cases hnil : parseCSV text = []
    · simp [hcsv, hnil]
    · have hlen : ¬(parseCSV text).length = 0 := by
        simpa [List.length_eq_zero] using hnil
      simp [hcsv, hlen, hnil]
  · have hcsv' : jsEndsWith fileName ".csv" = false := by
      simpa using hcsv
    simp [hcsv']

/-- Witness for C9: a rejected non-CSV name, a rejected empty parse, and
an accepted upload whose batch is the prepared parse. -/
theorem handleFileSelect_gate_witness :
    handleFileSelect "a.txt" "b" "u" "x" = ⟨.errorNotCsv, none⟩ ∧
    (handleFileSelect "ok.csv" "b" "u" "x").inserted = none ∧
    ((handleFileSelect "ok.csv" "b" "u" "Date,Category,Income\nd,Food,xyz").inserted ≠
      none) ∧
    ((parseCSV "Date,Category,Income\nd,Food,xyz").map (prepareInsert "b" "u") =
      (parseCSV "Date,Category,Income\nd,Food,xyz").map (prepareInsert "b" "u")) :=
  ⟨(handleFileSelect_gate "a.txt" "b" "u" "x").2.1 (by decide),
   (handleFileSelect_gate "ok.csv" "b" "u" "x").2.2.1 (by decide),
   (handleFileSelect_gate "ok.csv" "b" "u" "Date,Category,Income\nd,Food,xyz").1.mpr
     ⟨by decide, by decide⟩,
   (handleFileSelect_gate "ok.csv" "b" "u" "Date,Category,Income\nd,Food,xyz").2.2.2
     ((parseCSV "Date,Category,Income\nd,Food,xyz").map (prepareInsert "b" "u"))
     (by decide)⟩

/-! ## Category grouping lemmas -/

theorem lookupV_addTo_same (l : List Entry) (n : String) (v : ℚ) :
    lookupV (addTo l n v) n = some ((lookupV l n).getD 0 + v) := by
  induction l with
  | nil => simp [addTo, lookupV, List.find?]
  | cons e rest ih =>
    by_cases he : e.name = n
    · simp [addTo, he, lookupV, List.find?]
    · have hbeq : (e.name == n) = false := by simpa using he
      simp only [addTo, if_neg he, lookupV, List.find?_cons, hbeq]
      exact ih

theorem lookupV_addTo_other (l : List Entry) {m n : String} (v : ℚ)
    (hmn : m ≠ n) : lookupV (addTo l n v) m = lookupV l m := by
  induction l with
  | nil =>
    have : (n == m) = false := by simpa using (Ne.symm hmn)
    simp [addTo, lookupV, List.find?, this]
  | cons e rest ih =>
    by_cases he : e.name = n
    · have hbeq : (e.name == m) = false := by
        simp [he]
        exact Ne.symm hmn
      simp [addTo, if_pos he, lookupV, List.find?_cons, hbeq]
    · by_cases hem : e.name = m
      · have hbeq : (e.name == m) = true := by simpa using hem
        simp [addTo, if_neg he, lookupV, List.find?_cons, hbeq]
      · have hbeq : (e.name == m) = false := by simpa using hem
        simp only [addTo, if_neg he, lookupV, List.find?_cons, hbeq]
        exact ih

theorem addTo_names (l : List Entry) (n : String) (v : ℚ) :
    (addTo l n v).map Entry.name =
      if n ∈ l.map Entry.name then l.map Entry.name
      else l.map Entry.name ++ [n] := by
  induction l with
  | nil => simp [addTo]
  | cons e rest ih =>
    by_cases he : e.name = n
    · simp [addTo, if_pos he, he]
    · have : n ∈ Entry.name e :: rest.map Entry.name ↔ n ∈ rest.map Entry.name := by
        simp [List.mem_cons]
        intro h
        exact absurd h.symm he
      simp only [addTo, if_neg he, List.map_cons, ih]
      by_cases hmem : n ∈ rest.map Entry.name
      · rw [if_pos hmem, if_pos (this.mpr hmem)]
      · rw [if_neg hmem, if_neg (fun h => hmem (this.mp h)), List.cons_append]

theorem addTo_names_nodup {l : List Entry} (h : (l.map Entry.name).Nodup)
    (n : String) (v : ℚ) : ((addTo l n v).map Entry.name).Nodup := by
  rw [addTo_names]
  split
  · exact h
  · next hnot =>
    simp [List.nodup_append, h, hnot]

theorem foldAgg_nodup (ts : List Tx) : ∀ (acc : List Entry),
    (acc.map Entry.name).Nodup →
    (((ts.foldl (fun acc t =>
        if 0 < t.expense then addTo acc t.category t.expense else acc) acc)).map
      Entry.name).Nodup := by
  induction ts with
  | nil => intro acc h; exact h
  | cons t rest ih =>
    intro acc h
    rw [List.foldl_cons]
    by_cases hpos : 0 < t.expense
    · rw [if_pos hpos]
      exact ih _ (addTo_names_nodup h t.category t.expense)
    · rw [if_neg hpos]
      exact ih _ h

theorem foldAgg_lookup (ts : List Tx) : ∀ (acc : List Entry) (n : String),
    lookupV (ts.foldl (fun acc t =>
      if 0 < t.expense then addTo acc t.category t.expense else acc) acc) n =
      match lookupV acc n with
      | some q => some (q + sumFor ts n)
      | none => if presentFor ts n then some (sumFor ts n) else none := by
  induction ts with
  | nil =>
    intro acc n
    rw [List.foldl_nil]
    cases hacc : lookupV acc n <;> simp [sumFor, presentFor]
  | cons t rest ih =>
    intro acc n
    rw [List.foldl_cons]
    by_cases hpos : 0 < t.expense
    · rw [if_pos hpos]
      by_cases hcat : t.category = n
      · have hmatch : (t.category == n && decide (0 < t.expense)) = true := by
          simp [hcat, hpos]
        have hsum : sumFor (t :: rest) n = t.expense + sumFor rest n := by
          simp [sumFor, List.filter_cons, hmatch]
        have hpres : presentFor (t :: rest) n = true := by
          simp [presentFor, List.any_cons, hmatch]
        rw [ih (addTo acc t.category t.expense) n, hcat, lookupV_addTo_same,
          hsum, hpres]
        cases hacc : lookupV acc n with
        | none => simp
        | some q => simp [add_assoc]
      · have hmatch : (t.category == n && decide (0 < t.expense)) = false := by
          simp [hcat]
        have hsum : sumFor (t :: rest) n = sumFor rest n := by
          simp [sumFor, List.filter_cons, hmatch]
        have hpres : presentFor (t :: rest) n = presentFor rest n := by
          simp [presentFor, List.any_cons, hmatch]
        rw [ih (addTo acc t.category t.expense) n,
          lookupV_addTo_other _ t.expense (fun h => hcat h.symm), hsum, hpres]
    · rw [if_neg hpos]
      have hmatch : (t.category == n && decide (0 < t.expense)) = false := by
        simp [hpos]
      have hsum : sumFor (t :: rest) n = sumFor rest n := by
        simp [sumFor, List.filter_cons, hmatch]
      have hpres : presentFor (t :: rest) n = presentFor rest n := by
        simp [presentFor, List.any_cons, hmatch]
      rw [ih acc n, hsum, hpres]

theorem lookupV_of_mem : ∀ {l : List Entry}, (l.map Entry.name).Nodup →
    ∀ {e : Entry}, e ∈ l → lookupV l e.name = some e.value := by
  intro l
  induction l with
  | nil => intro _ e he; exact absurd he (List.not_mem_nil e)
  | cons x rest ih =>
    intro hnd e he
    rw [List.map_cons, List.nodup_cons] at hnd
    rcases List.mem_cons.mp he with rfl | hmem
    · simp [lookupV, List.find?_cons]
    · have hne : (x.name == e.name) = false := by
        simp only [beq_eq_false_iff_ne, ne_eq]
        intro hx
        exact hnd.1 (hx ▸ List.mem_map_of_mem Entry.name hmem)
      simp only [lookupV, List.find?_cons, hne]
      exact ih hnd.2 hmem

/-- Claim C6: category grouping includes exactly the positive-expense
transactions, groups them by the raw category string (each raw string
appears as one group), and sums expenses per group; on the concrete
multiset with expenses Food 30, Food 20, Rent 100 it yields
Food 50, Rent 100. -/
theorem categoryData_spec (ts : List Tx) :
    (∀ e ∈ categoryData ts,
      e.value = sumFor ts e.name ∧ ∃ t ∈ ts, t.category = e.name ∧ 0 < t.expense) ∧
    (∀ t ∈ ts, 0 < t.expense → ∃ e ∈ categoryData ts, e.name = t.category) ∧
    ((categoryData ts).map Entry.name).Nodup ∧
    categoryData [⟨"2024-01-05", "Food", none, 0, 30⟩, ⟨"2024-01-06", "Food", none, 0, 20⟩, ⟨"2024-01-07", "Rent", none, 0, 100⟩] =
      [⟨"Food", 50⟩, ⟨"Rent", 100⟩] := by
  have hnd : ((categoryData ts).map Entry.name).Nodup :=
    foldAgg_nodup ts [] (by simp)
  have hkey : ∀ n : String, lookupV (categoryData ts) n =
      if presentFor ts n then some (sumFor ts n) else none := by
    intro n
    have h := foldAgg_lookup ts [] n
    simpa [lookupV, List.find?] using h
  refine ⟨?_, ?_, hnd, ?_⟩
  · intro e he
    have h1 : lookupV (categoryData ts) e.name = some e.value :=
      lookupV_of_mem hnd he
    rw [hkey e.name] at h1
    by_cases hp : presentFor ts e.name = true
    · rw [if_pos hp] at h1
      rw [Option.some_inj] at h1
      obtain ⟨t, ht, hcond⟩ := List.any_eq_true.mp hp
      rw [Bool.and_eq_true, beq_iff_eq, decide_eq_true_eq] at hcond
      exact ⟨h1.symm, t, ht, hcond.1, hcond.2⟩
    · rw [if_neg hp] at h1
      exact absurd h1 (by simp)
  · intro t ht hpos
    have hp : presentFor ts t.category = true :=
      List.any_eq_true.mpr ⟨t, ht, by simp [hpos]⟩
    have h1 := hkey t.category
    rw [if_pos hp] at h1
    unfold lookupV at h1
    cases hf : (categoryData ts).find? (fun e => e.name == t.category) with
    | none => rw [hf] at h1; exact absurd h1 (by simp)
    | some e =>
      have hmem := List.mem_of_find?_eq_some hf
      have hname := List.find?_some hf
      rw [beq_iff_eq] at hname
      exact ⟨e, hmem, hname⟩
  · simp only [categoryData, List.foldl_cons, List.foldl_nil]
    norm_num [addTo]
    decide

/-- Witness for C6, instantiating both universally quantified parts at
the concrete three-transaction input. -/
theorem categoryData_spec_witness :
    ((50 : ℚ) = sumFor [⟨"2024-01-05", "Food", none, 0, 30⟩, ⟨"2024-01-06", "Food", none, 0, 20⟩, ⟨"2024-01-07", "Rent", none, 0, 100⟩] "Food" ∧
      ∃ t ∈ [⟨"2024-01-05", "Food", none, 0, 30⟩, ⟨"2024-01-06", "Food", none, 0, 20⟩, ⟨"2024-01-07", "Rent", none, 0, 100⟩],
        Tx.category t = "Food" ∧ 0 < t.expense) ∧
    ∃ e ∈ categoryData [⟨"2024-01-05", "Food", none, 0, 30⟩, ⟨"2024-01-06", "Food", none, 0, 20⟩, ⟨"2024-01-07", "Rent", none, 0, 100⟩],
      Entry.name e = "Food" := by
  have h := categoryData_spec [⟨"2024-01-05", "Food", none, 0, 30⟩, ⟨"2024-01-06", "Food", none, 0, 20⟩, ⟨"2024-01-07", "Rent", none, 0, 100⟩]
  refine ⟨h.1 ⟨"Food", 50⟩ ?_, h.2.1 ⟨"2024-01-05", "Food", none, 0, 30⟩ (by decide) (by decide)⟩
  rw [h.2.2.2]
  decide

/-! ## Stable sort lemmas -/

theorem length_insBy {α : Type} (keep : α → α → Bool) (e : α) (l : List α) :
    (insBy keep e l).length = l.length + 1 := by
  induction l with
  | nil => rfl
  | cons x xs ih =>
    simp only [insBy]
    split
    · simp [ih]
    · simp

theorem mem_insBy {α : Type} (keep : α → α → Bool) (e x : α) (l : List α) :
    x ∈ insBy keep e l ↔ x = e ∨ x ∈ l := by
  induction l with
  | nil => simp [insBy]
  | cons y ys ih =>
    simp only [insBy]
    split
    · simp only [List.mem_cons, ih]
      tauto
    · simp [List.mem_cons]

theorem pairwise_insBy_desc {l : List Entry}
    (h : l.Pairwise (fun a b => b.value ≤ a.value)) (e : Entry) :
    (insBy keepDesc e l).Pairwise (fun a b => b.value ≤ a.value) := by
  induction l with
  | nil => simp [insBy]
  | cons x xs ih =>
    rw [List.pairwise_cons] at h
    obtain ⟨hx, hxs⟩ := h
    by_cases hk : keepDesc x e = true
    · simp only [insBy, if_pos hk]
      rw [List.pairwise_cons]
      refine ⟨fun y hy => ?_, ih hxs⟩
      rcases (mem_insBy keepDesc e y xs).mp hy with rfl | hmem
      · simpa [keepDesc] using hk
      · exact hx y hmem
    · have hlt : x.value < e.value := by
        simpa [keepDesc, not_le] using hk
      simp only [insBy, if_neg hk]
      rw [List.pairwise_cons]
      refine ⟨fun y hy => ?_, List.pairwise_cons.mpr ⟨hx, hxs⟩⟩
      rcases List.mem_cons.mp hy with rfl | hmem
      · exact le_of_lt hlt
      · exact le_trans (hx y hmem) (le_of_lt hlt)

theorem filter_insBy_eq {l : List Entry} (v : ℚ)
    (h : l.Pairwise (fun a b => b.value ≤ a.value)) (e : Entry)
    (hv : e.value = v) :
    (insBy keepDesc e l).filter (fun x => x.value == v) =
      l.filter (fun x => x.value == v) ++ [e] := by
  induction l with
  | nil => simp [insBy, List.filter, hv]
  | cons x xs ih =>
    rw [List.pairwise_cons] at h
    by_cases hk : keepDesc x e = true
    · simp only [insBy, if_pos hk, List.filter_cons]
      by_cases hx : (x.value == v) = true <;> simp [hx, ih h.2]
    · have hlt : x.value < e.value := by
        simpa [keepDesc, not_le] using hk
      have htail : (x :: xs).filter (fun y => y.value == v) = [] := by
        rw [List.filter_eq_nil_iff]
        intro y hy
        have hyx : y.value ≤ x.value := by
          rcases List.mem_cons.mp hy with rfl | hmem
          · exact le_refl _
          · exact h.1 y hmem
        have hvlt : y.value < v := lt_of_le_of_lt hyx (hv ▸ hlt)
        simp [ne_of_lt hvlt]
      simp only [insBy, if_neg hk]
      simp [List.filter_cons, hv, htail]

theorem filter_insBy_ne {l : List Entry} (v : ℚ) (e : Entry)
    (hv : e.value ≠ v) :
    (insBy keepDesc e l).filter (fun x => x.value == v) =
      l.filter (fun x => x.value == v) := by
  have hbeq : (e.value == v) = false := by simpa using hv
  induction l with
  | nil => simp [insBy, List.filter_cons, hbeq]
  | cons x xs ih =>
    by_cases hk : keepDesc x e = true
    · simp only [insBy, if_pos hk, List.filter_cons]
      rw [ih]
    · simp only [insBy, if_neg hk, List.filter_cons]
      simp [hbeq]

theorem jsSortDesc_props (l : List Entry) : ∀ acc : List Entry,
    acc.Pairwise (fun a b => b.value ≤ a.value) →
    (l.foldl (fun acc e => insBy keepDesc e acc) acc).Pairwise
      (fun a b => b.value ≤ a.value) ∧
    (∀ v : ℚ, (l.foldl (fun acc e => insBy keepDesc e acc) acc).filter
        (fun x => x.value == v) =
      acc.filter (fun x => x.value == v) ++ l.filter (fun x => x.value == v)) ∧
    (l.foldl (fun acc e => insBy keepDesc e acc) acc).length =
      acc.length + l.length := by
  induction l with
  | nil => intro acc h; exact ⟨h, fun v => by simp, by simp⟩
  | cons e ls ih =>
    intro acc h
    rw [List.foldl_cons]
    obtain ⟨hs, hf, hl⟩ := ih (insBy keepDesc e acc) (pairwise_insBy_desc h e)
    refine ⟨hs, fun v => ?_, ?_⟩
    · rw [hf v]
      by_cases hv : e.value = v
      · rw [filter_insBy_eq v h e hv]
        simp [List.filter_cons, hv, List.append_assoc]
      · rw [filter_insBy_ne v e hv]
        simp [List.filter_cons, hv]
    · rw [hl, length_insBy, List.length_cons]
      omega

/-- Claim C7: Top-N selection (`topExpenses` is exactly Top-5 of the
category grouping, the bar-chart slice exactly Top-10 of the windowed
grouping) returns `min n (number of groups)` entries, sorted by
descending value, and equal-valued groups keep their original encounter
order (the filter at any value is a prefix of the input's filter); group
lists carry pairwise-distinct names. -/
theorem topSelect_spec (ts : List Tx) (gs : List Entry) (n : Nat) :
    topExpenses ts = topSelect 5 (categoryData ts) ∧
    top10Bars ts = topSelect 10 (groupedCat2 ts) ∧
    (topSelect n gs).length = min n gs.length ∧
    (topSelect n gs).Pairwise (fun a b => b.value ≤ a.value) ∧
    (∀ v : ℚ, List.IsPrefix
      ((topSelect n gs).filter (fun e => e.value == v))
      (gs.filter (fun e => e.value == v))) ∧
    ((categoryData ts).map Entry.name).Nodup := by
  obtain ⟨hs, hf, hl⟩ := jsSortDesc_props gs [] (by simp)
  have hlen : (sortDesc gs).length = gs.length := by
    simpa using hl
  refine ⟨rfl, rfl, ?_, ?_, ?_, foldAgg_nodup ts [] (by simp)⟩
  · show ((sortDesc gs).take n).length = min n gs.length
    rw [List.length_take, hlen]
  · exact List.Pairwise.sublist (List.take_sublist n (sortDesc gs)) hs
  · intro v
    have hfv : (sortDesc gs).filter (fun e => e.value == v) =
        gs.filter (fun e => e.value == v) := by
      simpa using hf v
    refine ⟨((sortDesc gs).drop n).filter (fun e => e.value == v), ?_⟩
    show ((sortDesc gs).take n).filter (fun e => e.value == v) ++
      ((sortDesc gs).drop n).filter (fun e => e.value == v) =
      gs.filter (fun e => e.value == v)
    rw [← hfv, ← List.filter_append, List.take_append_drop]

/-- Claim C1 (code bug): `monthlyData` buckets all positive-expense
transactions by month label, but its sort key
`parseISO(month + " 01")` is always an invalid date (three
space-separated segments are not ISO 8601), the comparator value is NaN
— treated as +0 by the ECMAScript sort — and the stable sort therefore
leaves the buckets in first-encounter order.  At this input (March, then
January, then February 2024) the code produces exactly 3 buckets in
encounter order, not chronological order; a non-monthly period produces
the early-return empty array. -/
theorem monthlyData_not_chronological :
    (monthlyData [⟨"2024-03-05", "A", none, 0, 10⟩, ⟨"2024-01-02", "A", none, 0, 5⟩, ⟨"2024-02-03", "A", none, 0, 7⟩]).map MonthBucket.month =
      ["Mar 2024", "Jan 2024", "Feb 2024"] ∧
    (monthlyData [⟨"2024-03-05", "A", none, 0, 10⟩, ⟨"2024-01-02", "A", none, 0, 5⟩, ⟨"2024-02-03", "A", none, 0, 7⟩]).map MonthBucket.month ≠
      ["Jan 2024", "Feb 2024", "Mar 2024"] ∧
    ((monthlyData [⟨"2024-03-05", "A", none, 0, 10⟩, ⟨"2024-01-02", "A", none, 0, 5⟩, ⟨"2024-02-03", "A", none, 0, 7⟩]).map MonthBucket.sortKey).all
      (fun k => k == none) = true ∧
    monthlyDataFor TimePeriod.weekly [⟨"2024-03-05", "A", none, 0, 10⟩] = [] :=
  ⟨by decide, by decide, by decide, by decide⟩
